import Mathlib

/-!
Verification of the Lantern ray tracer core (src/lantern/mod.rs, src/camera.rs)
against its natural-language specification.

The Rust code computes with `f32`; this development models the arithmetic over
the real numbers `ℝ`, translating each source function structurally.  `nalgebra`
operations used by the source (`magnitude_squared`, `dot`, `normalize`,
`renormalize_fast`, `cross`, `Reflection3::reflect`, `Perspective3::inverse`)
are expanded to their component formulas, exactly as implemented by that
library.
-/

noncomputable section

open Real

/-- Component model of `nalgebra::Vector3<f32>` / `Point3<f32>` over `ℝ`. -/
@[ext]
structure Vec3 where
  x : ℝ
  y : ℝ
  z : ℝ

/-- Component model of `nalgebra::Vector4<f32>` over `ℝ`. -/
@[ext]
structure Vec4 where
  x : ℝ
  y : ℝ
  z : ℝ
  w : ℝ

instance : Add Vec3 := ⟨fun a b => ⟨a.x + b.x, a.y + b.y, a.z + b.z⟩⟩

instance : Sub Vec3 := ⟨fun a b => ⟨a.x - b.x, a.y - b.y, a.z - b.z⟩⟩

instance : Neg Vec3 := ⟨fun a => ⟨-a.x, -a.y, -a.z⟩⟩

instance : SMul ℝ Vec3 := ⟨fun r a => ⟨r * a.x, r * a.y, r * a.z⟩⟩

instance : Add Vec4 := ⟨fun a b => ⟨a.x + b.x, a.y + b.y, a.z + b.z, a.w + b.w⟩⟩

/-- Dot product, as `nalgebra`'s `dot`. -/
def Vec3.dot (a b : Vec3) : ℝ := a.x * b.x + a.y * b.y + a.z * b.z

/-- Squared euclidean norm, as `nalgebra`'s `magnitude_squared` / `norm_squared`. -/
def Vec3.normSq (a : Vec3) : ℝ := a.x ^ 2 + a.y ^ 2 + a.z ^ 2

/-- Euclidean norm, as `nalgebra`'s `magnitude`. -/
def Vec3.norm (a : Vec3) : ℝ := Real.sqrt a.normSq

/-- Componentwise division by a scalar (`nalgebra`'s `v / s`). -/
def Vec3.divs (a : Vec3) (s : ℝ) : Vec3 := ⟨a.x / s, a.y / s, a.z / s⟩

/-- `nalgebra`'s `normalize`: the vector divided by its euclidean norm. -/
def Vec3.normalize (a : Vec3) : Vec3 := a.divs a.norm

/-- Cross product, as `nalgebra`'s `cross`. -/
def Vec3.cross (a b : Vec3) : Vec3 :=
  ⟨a.y * b.z - a.z * b.y, a.z * b.x - a.x * b.z, a.x * b.y - a.y * b.x⟩

/-- `nalgebra` `Unit::renormalize_fast`: first-order renormalization
`v := v * (0.5 * (3 - |v|^2))`. -/
def renormalizeFast (v : Vec3) : Vec3 := (0.5 * (3 - v.normSq)) • v

/-- `Material` from src/lantern/scene.rs. -/
structure Material where
  albedo : Vec3
  roughness : ℝ
  metallic : ℝ

/-- `Sphere` from src/lantern/scene.rs. -/
@[ext]
structure Sphere where
  position : Vec3
  radius : ℝ
  material_index : ℕ

/-- `Scene` from src/lantern/scene.rs. -/
structure Scene where
  spheres : List Sphere
  materials : List Material

/-- `Ray` from src/lantern/ray.rs (direction is `Unit<Vector3>` in the source,
nominally a unit vector; the model carries a plain vector). -/
structure Ray where
  origin : Vec3
  direction : Vec3

/-- `Material::default()` from src/lantern/scene.rs. -/
def defaultMaterial : Material := ⟨⟨1, 1, 1⟩, 1, 0⟩

/-- `HitPayload` from src/lantern/mod.rs (the sphere is held by value here
rather than by reference). -/
@[ext]
structure HitPayload where
  distance : ℝ
  position : Vec3
  normal : Vec3
  sphere : Sphere

/-- Quadratic discriminant computed per sphere inside `trace_ray`
(src/lantern/mod.rs lines 185-192): `b^2 - 4ac` with `a = |d|^2`,
`b = 2 (o·d)`, `c = |o|^2 - r^2`, where `o = ray.origin - sphere.position`. -/
def sphereDisc (ray : Ray) (s : Sphere) : ℝ :=
  (2 * ((ray.origin - s.position).dot ray.direction)) ^ 2
    - 4 * ray.direction.normSq * ((ray.origin - s.position).normSq - s.radius ^ 2)

/-- Near quadratic root `t = (-b - sqrt(disc)) / (2a)` computed inside
`trace_ray` (src/lantern/mod.rs line 198). -/
def nearRoot (ray : Ray) (s : Sphere) : ℝ :=
  (-(2 * ((ray.origin - s.position).dot ray.direction)) - Real.sqrt (sphereDisc ray s))
    / (2 * ray.direction.normSq)

/-- Per-sphere candidate distance: the body of the `for` loop in `trace_ray`
up to the two `continue` guards (discriminant `< 0`, root `< 0`). -/
def sphereT (ray : Ray) (s : Sphere) : Option ℝ :=
  if sphereDisc ray s < 0 then none
  else if nearRoot ray s < 0 then none
  else some (nearRoot ray s)

/-- One iteration of the `closest` update in `trace_ray` (src/lantern/mod.rs
lines 194-209): a sphere with a valid root replaces the current best only on a
strictly smaller distance. -/
def traceStep (ray : Ray) (acc : Option (Sphere × ℝ)) (s : Sphere) : Option (Sphere × ℝ) :=
  match sphereT ray s with
  | none => acc
  | some t =>
    match acc with
    | none => some (s, t)
    | some (ps, pt) => if pt > t then some (s, t) else some (ps, pt)

/-- The `for sphere in &scene.spheres` loop of `trace_ray`. -/
def traceLoop (ray : Ray) (L : List Sphere) (acc : Option (Sphere × ℝ)) :
    Option (Sphere × ℝ) :=
  match L with
  | [] => acc
  | s :: rest => traceLoop ray rest (traceStep ray acc s)

/-- `Lantern::closest_hit` (src/lantern/mod.rs lines 159-173). -/
def closest_hit (ray : Ray) (distance : ℝ) (sphere : Sphere) : HitPayload :=
  { distance := distance
    position := ((ray.origin - sphere.position) + distance • ray.direction) + sphere.position
    normal := renormalizeFast
      (((ray.origin - sphere.position) + distance • ray.direction).divs sphere.radius)
    sphere := sphere }

/-- `Lantern::trace_ray` (src/lantern/mod.rs lines 175-215). -/
def trace_ray (ray : Ray) (scene : Scene) : Option HitPayload :=
  (traceLoop ray scene.spheres none).map fun p => closest_hit ray p.2 p.1

/-- `winit::dpi::PhysicalSize<u32>`. -/
structure PhysicalSize where
  width : ℕ
  height : ℕ

/-- The nonzero entries of the projection matrix built in `Camera::new` /
`reevaluate_projection` (src/camera.rs lines 36-41, 180-187).  Both
`Perspective3::new(aspect, fovy, near, far).into_inner()` and its product with
`z_flip = diag(1,1,-1,1)` are zero outside positions `(0,0)`, `(1,1)`, `(2,2)`,
`(2,3)`, `(3,2)`, `(3,3)`, so only those six entries are carried. -/
structure Proj where
  m00 : ℝ
  m11 : ℝ
  m22 : ℝ
  m23 : ℝ
  m32 : ℝ
  m33 : ℝ

/-- The matrix `Perspective3::new(aspect, fovy, near, far).into_inner() * z_flip`
from src/camera.rs: the right-handed `nalgebra` perspective matrix with its
third column negated. -/
def perspectiveZFlip (aspect fovy near far : ℝ) : Proj :=
  { m00 := 1 / Real.tan (fovy / 2) / aspect
    m11 := 1 / Real.tan (fovy / 2)
    m22 := (far + near) / (far - near)
    m23 := -(2 * far * near) / (far - near)
    m32 := 1
    m33 := 0 }

/-- `nalgebra` `Perspective3::inverse`, which computes the inverse by the
closed perspective formula on the six stored entries. -/
def Proj.inverse (p : Proj) : Proj :=
  { m00 := 1 / p.m00
    m11 := 1 / p.m11
    m22 := 0
    m23 := 1 / p.m32
    m32 := 1 / p.m23
    m33 := -p.m22 / (p.m23 * p.m32) }

/-- Multiplication of a `Proj`-shaped matrix with a homogeneous vector. -/
def Proj.mulVec4 (p : Proj) (v : Vec4) : Vec4 :=
  ⟨p.m00 * v.x, p.m11 * v.y, p.m22 * v.z + p.m23 * v.w, p.m32 * v.z + p.m33 * v.w⟩

/-- World up vector `Vector3::y_axis()`. -/
def yAxis : Vec3 := ⟨0, 1, 0⟩

/-- `view.inverse_transform_vector` for the view isometry built by
`Isometry3::look_at_lh(position, position + forward, y_axis)`: the inverse of
the look-at rotation, expanded per `nalgebra`'s `Rotation3::look_at_lh`
(rows `xaxis = normalize(up × zaxis)`, `yaxis = normalize(zaxis × xaxis)`,
`zaxis = normalize(dir)`; the inverse maps `v` to
`v.x • xaxis + v.y • yaxis + v.z • zaxis`). -/
def lookAtInvRot (forward v : Vec3) : Vec3 :=
  (v.x • (yAxis.cross forward.normalize).normalize) +
    (v.y • (forward.normalize.cross (yAxis.cross forward.normalize).normalize).normalize) +
    (v.z • forward.normalize)

/-- The per-index body of `Camera::reevaluate_rays` (src/camera.rs lines
199-233): recover `(x, y)` from the flat index, map to `[-1,1]^2`, unproject
through the inverse projection, normalize, flip when `w` is negative, and
rotate into world space. -/
def rayDirAt (p : Proj) (forward : Vec3) (size : PhysicalSize) (index : ℕ) : Vec3 :=
  let y : ℕ := index / size.width
  let x : ℕ := index % size.width
  let cx : ℝ := (x : ℝ) / (size.width : ℝ) * 2 - 1
  let cy : ℝ := (y : ℝ) / (size.height : ℝ) * 2 - 1
  let target := p.inverse.mulVec4 ⟨cx, cy, 1, 1⟩
  let normalized := (Vec3.mk target.x target.y target.z).normalize
  lookAtInvRot forward (if target.w < 0 then -normalized else normalized)

/-- `Camera::reevaluate_rays` (src/camera.rs lines 194-239): the ray array of
length `width * height`, filled in parallel by flat index. -/
def reevaluate_rays (p : Proj) (forward : Vec3) (size : PhysicalSize) : List Vec3 :=
  (List.range (size.width * size.height)).map (rayDirAt p forward size)

/-- `Camera` from src/camera.rs (input-handling fields omitted; the view
isometry's rotation is determined by `forward`, so it is not stored). -/
structure Camera where
  proj : Proj
  vertical_fov : ℝ
  near : ℝ
  far : ℝ
  position : Vec3
  forward : Vec3
  rays : List Vec3
  viewport_size : PhysicalSize

/-- `Camera::new` (src/camera.rs lines 33-66). -/
def Camera.new (vertical_fov near far : ℝ) (viewport_size : PhysicalSize) : Camera :=
  let aspect := (viewport_size.width : ℝ) / (viewport_size.height : ℝ)
  let proj := perspectiveZFlip aspect vertical_fov near far
  { proj := proj
    vertical_fov := vertical_fov
    near := near
    far := far
    position := ⟨0, 0, -1⟩
    forward := ⟨0, 0, 1⟩
    rays := reevaluate_rays proj ⟨0, 0, 1⟩ viewport_size
    viewport_size := viewport_size }

/-- `Camera::resize` (src/camera.rs lines 165-170): unconditionally stores the
new size, recomputes the projection, and rebuilds the ray array. -/
def Camera.resize (c : Camera) (new_size : PhysicalSize) : Camera :=
  let proj := perspectiveZFlip ((new_size.width : ℝ) / (new_size.height : ℝ))
    c.vertical_fov c.near c.far
  { c with
    viewport_size := new_size
    proj := proj
    rays := reevaluate_rays proj c.forward new_size }

/-- The camera-relevant part of `App::resize` (src/app.rs lines 272-286): the
caller returns early when either dimension is zero, and otherwise forwards the
new size to `Camera::resize`. -/
def appResizeCamera (c : Camera) (new_size : PhysicalSize) : Camera :=
  if new_size.width = 0 ∨ new_size.height = 0 then c else c.resize new_size

/-- Sky color from src/lantern/mod.rs line 130. -/
def skyColor : Vec3 := ⟨0.6, 0.7, 0.9⟩

/-- The fixed light direction `Vector3::new(-1,-1,1).normalize()` from
src/lantern/mod.rs line 138. -/
def lightDirection : Vec3 := Vec3.normalize ⟨-1, -1, 1⟩

/-- The bounce-direction update of `per_pixel` (src/lantern/mod.rs lines
150-153): perturb the normal by `roughness * random_vec(-0.5..0.5)`, normalize,
and reflect the ray direction about the resulting axis with
`Reflection3::new(axis, 0.0)` (`d' = d - 2 (axis·d) axis`). -/
def nextRayDirection (normal dir : Vec3) (roughness : ℝ) (rand : Vec3) : Vec3 :=
  let axis := (normal + roughness • rand).normalize
  dir - (2 * (axis.dot dir)) • axis

/-- The bounce loop of `Lantern::per_pixel` (src/lantern/mod.rs lines 128-154),
with fuel `BOUNCE_LIMIT = 2` and the thread-local random source modelled by the
stream `rands` of per-bounce random vectors. -/
def bounce_loop (scene : Scene) (rands : ℕ → Vec3) :
    ℕ → ℕ → Ray → Vec3 → ℝ → Vec3
  | 0, _, _, color, _ => color
  | fuel + 1, k, ray, color, mult =>
    match trace_ray ray scene with
    | none => color + mult • skyColor
    | some hp =>
      bounce_loop scene rands fuel (k + 1)
        ⟨hp.position + (0.0001 : ℝ) • hp.normal,
          nextRayDirection hp.normal ray.direction
            ((scene.materials.getD hp.sphere.material_index defaultMaterial).roughness)
            (rands k)⟩
        (color + mult •
          ((max (hp.normal.dot (-lightDirection)) 0) •
            (scene.materials.getD hp.sphere.material_index defaultMaterial).albedo))
        (mult * 0.7)

/-- `Lantern::per_pixel` (src/lantern/mod.rs lines 115-157): starts from the
camera position along the precomputed ray for the pixel, runs the bounce loop
with zero color and multiplier `1`, and returns the color with alpha `1`. -/
def per_pixel (width : ℕ) (scene : Scene) (cam : Camera) (rands : ℕ → Vec3)
    (x y : ℕ) : Vec4 :=
  let c := bounce_loop scene rands 2 0
    ⟨cam.position, cam.rays.getD (y * width + x) ⟨0, 0, 0⟩⟩ ⟨0, 0, 0⟩ 1
  ⟨c.x, c.y, c.z, 1⟩

/-- The accumulator state of `Lantern` (src/lantern/mod.rs lines 32-38); the
GPU image and packed display buffer are owned by excluded collaborators. -/
structure Lantern where
  path_acc : List Vec4
  acc_counter : ℕ
  should_accumulate : Bool

/-- `Lantern::reset_counter` (src/lantern/mod.rs lines 108-110). -/
def Lantern.reset_counter (l : Lantern) : Lantern := { l with acc_counter := 1 }

/-- `Lantern::update` (src/lantern/mod.rs lines 65-106), restricted to the
accumulator state: when the counter is `1` the running-sum buffer is first
zeroed (`ptr::write_bytes`), then every slot receives its `per_pixel` color
(abstracted by `colors`, since the source color depends on a thread-local
random generator), and finally the counter is incremented or reset according
to `should_accumulate`. -/
def Lantern.update (l : Lantern) (colors : ℕ → Vec4) : Lantern :=
  { l with
    path_acc :=
      (List.range l.path_acc.length).map fun i =>
        (if l.acc_counter = 1 then List.replicate l.path_acc.length (⟨0, 0, 0, 0⟩ : Vec4)
         else l.path_acc).getD i ⟨0, 0, 0, 0⟩ + colors i
    acc_counter := if l.should_accumulate then l.acc_counter + 1 else 1 }

/-- Statement of the closest-hit selection property of `trace_ray` (claim C1):
misses are exactly the scenes whose spheres all fail the discriminant/root
tests; a per-sphere candidate exists exactly when the discriminant and the near
root are non-negative, and then equals the near root; and a returned hit comes
from a sphere whose candidate distance is a minimum over all candidates and is
strictly below every candidate of an earlier sphere in list order. -/
def traceRaySpec (ray : Ray) (scene : Scene) : Prop :=
  (trace_ray ray scene = none ↔ ∀ s ∈ scene.spheres, sphereT ray s = none) ∧
  (∀ s t, sphereT ray s = some t ↔
    (0 ≤ sphereDisc ray s ∧ 0 ≤ nearRoot ray s ∧ t = nearRoot ray s)) ∧
  (∀ hp, trace_ray ray scene = some hp →
    ∃ i, ∃ hi : i < scene.spheres.length,
      scene.spheres.get ⟨i, hi⟩ = hp.sphere ∧
      sphereT ray hp.sphere = some hp.distance ∧
      (∀ u ∈ scene.spheres, ∀ tu, sphereT ray u = some tu → hp.distance ≤ tu) ∧
      (∀ j, ∀ hj : j < scene.spheres.length, j < i → ∀ tu,
        sphereT ray (scene.spheres.get ⟨j, hj⟩) = some tu → hp.distance < tu))

end

section VecLemmas

@[simp] theorem Vec3.add_x (a b : Vec3) : (a + b).x = a.x + b.x := rfl
@[simp] theorem Vec3.add_y (a b : Vec3) : (a + b).y = a.y + b.y := rfl
@[simp] theorem Vec3.add_z (a b : Vec3) : (a + b).z = a.z + b.z := rfl
@[simp] theorem Vec3.sub_x (a b : Vec3) : (a - b).x = a.x - b.x := rfl
@[simp] theorem Vec3.sub_y (a b : Vec3) : (a - b).y = a.y - b.y := rfl
@[simp] theorem Vec3.sub_z (a b : Vec3) : (a - b).z = a.z - b.z := rfl
@[simp] theorem Vec3.neg_x (a : Vec3) : (-a).x = -a.x := rfl
@[simp] theorem Vec3.neg_y (a : Vec3) : (-a).y = -a.y := rfl
@[simp] theorem Vec3.neg_z (a : Vec3) : (-a).z = -a.z := rfl
@[simp] theorem Vec3.smul_x (r : ℝ) (a : Vec3) : (r • a).x = r * a.x := rfl
@[simp] theorem Vec3.smul_y (r : ℝ) (a : Vec3) : (r • a).y = r * a.y := rfl
@[simp] theorem Vec3.smul_z (r : ℝ) (a : Vec3) : (r • a).z = r * a.z := rfl
@[simp] theorem Vec4.add_fst (a b : Vec4) : (a + b).x = a.x + b.x := rfl
@[simp] theorem Vec4.add_snd (a b : Vec4) : (a + b).y = a.y + b.y := rfl
@[simp] theorem Vec4.add_thd (a b : Vec4) : (a + b).z = a.z + b.z := rfl
@[simp] theorem Vec4.add_w (a b : Vec4) : (a + b).w = a.w + b.w := rfl

theorem Vec3.normSq_nonneg (a : Vec3) : 0 ≤ a.normSq := by
  unfold Vec3.normSq; positivity

theorem Vec3.dot_comm (a b : Vec3) : a.dot b = b.dot a := by
  rw [Vec3.dot, Vec3.dot]; ring

theorem Vec3.normSq_neg (a : Vec3) : (-a).normSq = a.normSq := by
  simp only [Vec3.normSq, Vec3.neg_x, Vec3.neg_y, Vec3.neg_z]; ring

theorem Vec3.normSq_normalize (v : Vec3) (h : v.normSq ≠ 0) :
    (Vec3.normalize v).normSq = 1 := by
  have hs : Real.sqrt v.normSq ^ 2 = v.normSq := Real.sq_sqrt v.normSq_nonneg
  have hcalc : (Vec3.normalize v).normSq = v.normSq / Real.sqrt v.normSq ^ 2 := by
    simp only [Vec3.normalize, Vec3.divs, Vec3.norm, Vec3.normSq]
    ring
  rw [hcalc, hs, div_self h]

theorem Vec3.normalize_of_normSq_one (v : Vec3) (h : v.normSq = 1) :
    Vec3.normalize v = v := by
  rw [Vec3.normalize, Vec3.norm, h, Real.sqrt_one, Vec3.divs]
  ext <;> simp

end VecLemmas

section TraceLoopLemmas

theorem traceLoop_nil (ray : Ray) (acc : Option (Sphere × ℝ)) :
    traceLoop ray [] acc = acc := rfl

theorem traceLoop_cons (ray : Ray) (u : Sphere) (rest : List Sphere)
    (acc : Option (Sphere × ℝ)) :
    traceLoop ray (u :: rest) acc = traceLoop ray rest (traceStep ray acc u) := rfl

theorem traceStep_of_none {ray : Ray} {u : Sphere} (h : sphereT ray u = none)
    (acc : Option (Sphere × ℝ)) : traceStep ray acc u = acc := by
  simp [traceStep, h]

theorem traceStep_some_of_none {ray : Ray} {u : Sphere} {t : ℝ}
    (h : sphereT ray u = some t) : traceStep ray none u = some (u, t) := by
  simp [traceStep, h]

theorem traceStep_some_of_some {ray : Ray} {u : Sphere} {t : ℝ}
    (h : sphereT ray u = some t) (ps : Sphere) (pt : ℝ) :
    traceStep ray (some (ps, pt)) u =
      if pt > t then some (u, t) else some (ps, pt) := by
  simp [traceStep, h]

theorem traceStep_eq_none (ray : Ray) (acc : Option (Sphere × ℝ)) (s : Sphere) :
    traceStep ray acc s = none ↔ acc = none ∧ sphereT ray s = none := by
  rcases h : sphereT ray s with _ | t
  · simp [traceStep_of_none h]
  · rcases acc with _ | ⟨ps, pt⟩
    · simp [traceStep_some_of_none h, h]
    · rw [traceStep_some_of_some h]
      split <;> simp [h]

theorem traceLoop_none (ray : Ray) :
    ∀ (L : List Sphere) (acc : Option (Sphere × ℝ)),
      traceLoop ray L acc = none ↔ acc = none ∧ ∀ s ∈ L, sphereT ray s = none := by
  intro L
  induction L with
  | nil => intro acc; simp [traceLoop_nil]
  | cons u rest ih =>
    intro acc
    rw [traceLoop_cons, ih, traceStep_eq_none]
    constructor
    · rintro ⟨⟨ha, hu⟩, hrest⟩
      refine ⟨ha, ?_⟩
      intro s hs
      rcases List.mem_cons.mp hs with rfl | hs
      · exact hu
      · exact hrest s hs
    · rintro ⟨ha, hall⟩
      exact ⟨⟨ha, hall u (List.mem_cons_self u rest)⟩,
        fun s hs => hall s (List.mem_cons_of_mem u hs)⟩

theorem traceLoop_sel (ray : Ray) :
    ∀ (L : List Sphere) (acc : Option (Sphere × ℝ)) (s : Sphere) (t : ℝ),
      traceLoop ray L acc = some (s, t) →
      (acc = some (s, t) ∧ ∀ u ∈ L, ∀ tu, sphereT ray u = some tu → t ≤ tu) ∨
      (∃ i, ∃ hi : i < L.length,
        L.get ⟨i, hi⟩ = s ∧ sphereT ray s = some t ∧
        (∀ p pt, acc = some (p, pt) → t < pt) ∧
        (∀ u ∈ L, ∀ tu, sphereT ray u = some tu → t ≤ tu) ∧
        (∀ j, ∀ hj : j < L.length, j < i → ∀ tu,
          sphereT ray (L.get ⟨j, hj⟩) = some tu → t < tu)) := by
  intro L
  induction L with
  | nil =>
    intro acc s t h
    left
    exact ⟨h, by simp⟩
  | cons u rest ih =>
    intro acc s t h
    rw [traceLoop_cons] at h
    rcases hu : sphereT ray u with _ | tu
    · rw [traceStep_of_none hu] at h
      rcases ih acc s t h with ⟨hacc, hb⟩ | ⟨i, hi, hget, hsph, haccb, hb, hstrict⟩
      · left
        refine ⟨hacc, ?_⟩
        intro v hv tv hsv
        rcases List.mem_cons.mp hv with rfl | hv
        · rw [hu] at hsv; exact absurd hsv (by simp)
        · exact hb v hv tv hsv
      · right
        refine ⟨i + 1, Nat.succ_lt_succ hi, ?_, hsph, haccb, ?_, ?_⟩
        · simpa using hget
        · intro v hv tv hsv
          rcases List.mem_cons.mp hv with rfl | hv
          · rw [hu] at hsv; exact absurd hsv (by simp)
          · exact hb v hv tv hsv
        · intro j hj hji tv hsv
          rcases j with _ | j'
          · have hsv' : sphereT ray u = some tv := hsv
            rw [hu] at hsv'
            exact absurd hsv' (by simp)
          · exact hstrict j' (Nat.lt_of_succ_lt_succ hj) (Nat.lt_of_succ_lt_succ hji) tv hsv
    · rcases acc with _ | ⟨pa, pt⟩
      · rw [traceStep_some_of_none hu] at h
        rcases ih (some (u, tu)) s t h with ⟨hacc, hb⟩ |
          ⟨i, hi, hget, hsph, haccb, hb, hstrict⟩
        · obtain ⟨rfl, rfl⟩ : u = s ∧ tu = t := by
            simpa [Prod.ext_iff] using hacc
          right
          refine ⟨0, Nat.succ_pos _, List.get_cons_zero, hu, ?_, ?_, ?_⟩
          · intro p pt hc; exact absurd hc (by simp)
          · intro v hv tv hsv
            rcases List.mem_cons.mp hv with rfl | hv
            · rw [hu] at hsv
              obtain rfl : tu = tv := by simpa using hsv
              exact le_refl tu
            · exact hb v hv tv hsv
          · intro j hj hji tv hsv
            exact absurd hji (Nat.not_lt_zero j)
        · have htu : t < tu := haccb u tu rfl
          right
          refine ⟨i + 1, Nat.succ_lt_succ hi, ?_, hsph, ?_, ?_, ?_⟩
          · simpa using hget
          · intro p pt hc; exact absurd hc (by simp)
          · intro v hv tv hsv
            rcases List.mem_cons.mp hv with rfl | hv
            · rw [hu] at hsv
              obtain rfl : tu = tv := by simpa using hsv
              exact le_of_lt htu
            · exact hb v hv tv hsv
          · intro j hj hji tv hsv
            rcases j with _ | j'
            · have hsv' : sphereT ray u = some tv := hsv
              rw [hu] at hsv'
              obtain rfl : tu = tv := by simpa using hsv'
              exact htu
            · exact hstrict j' (Nat.lt_of_succ_lt_succ hj) (Nat.lt_of_succ_lt_succ hji) tv hsv
      · rw [traceStep_some_of_some hu] at h
        by_cases hcmp : pt > tu
        · rw [if_pos hcmp] at h
          rcases ih (some (u, tu)) s t h with ⟨hacc, hb⟩ |
            ⟨i, hi, hget, hsph, haccb, hb, hstrict⟩
          · obtain ⟨rfl, rfl⟩ : u = s ∧ tu = t := by
              simpa [Prod.ext_iff] using hacc
            right
            refine ⟨0, Nat.succ_pos _, List.get_cons_zero, hu, ?_, ?_, ?_⟩
            · intro p pt' hc
              obtain ⟨rfl, rfl⟩ : pa = p ∧ pt = pt' := by
                simpa [Prod.ext_iff] using hc
              exact hcmp
            · intro v hv tv hsv
              rcases List.mem_cons.mp hv with rfl | hv
              · rw [hu] at hsv
                obtain rfl : tu = tv := by simpa using hsv
                exact le_refl tu
              · exact hb v hv tv hsv
            · intro j hj hji tv hsv
              exact absurd hji (Nat.not_lt_zero j)
          · have htu : t < tu := haccb u tu rfl
            right
            refine ⟨i + 1, Nat.succ_lt_succ hi, ?_, hsph, ?_, ?_, ?_⟩
            · simpa using hget
            · intro p pt' hc
              obtain ⟨rfl, rfl⟩ : pa = p ∧ pt = pt' := by
                simpa [Prod.ext_iff] using hc
              exact lt_trans htu hcmp
            · intro v hv tv hsv
              rcases List.mem_cons.mp hv with rfl | hv
              · rw [hu] at hsv
                obtain rfl : tu = tv := by simpa using hsv
                exact le_of_lt htu
              · exact hb v hv tv hsv
            · intro j hj hji tv hsv
              rcases j with _ | j'
              · have hsv' : sphereT ray u = some tv := hsv
                rw [hu] at hsv'
                obtain rfl : tu = tv := by simpa using hsv'
                exact htu
              · exact hstrict j' (Nat.lt_of_succ_lt_succ hj) (Nat.lt_of_succ_lt_succ hji) tv hsv
        · rw [if_neg hcmp] at h
          have hle : pt ≤ tu := not_lt.mp hcmp
          rcases ih (some (pa, pt)) s t h with ⟨hacc, hb⟩ |
            ⟨i, hi, hget, hsph, haccb, hb, hstrict⟩
          · obtain ⟨rfl, rfl⟩ : pa = s ∧ pt = t := by
              simpa [Prod.ext_iff] using hacc
            left
            refine ⟨rfl, ?_⟩
            intro v hv tv hsv
            rcases List.mem_cons.mp hv with rfl | hv
            · rw [hu] at hsv
              obtain rfl : tu = tv := by simpa using hsv
              exact hle
            · exact hb v hv tv hsv
          · have htpt : t < pt := haccb pa pt rfl
            right
            refine ⟨i + 1, Nat.succ_lt_succ hi, ?_, hsph, ?_, ?_, ?_⟩
            · simpa using hget
            · intro p pt' hc
              obtain ⟨rfl, rfl⟩ : pa = p ∧ pt = pt' := by
                simpa [Prod.ext_iff] using hc
              exact htpt
            · intro v hv tv hsv
              rcases List.mem_cons.mp hv with rfl | hv
              · rw [hu] at hsv
                obtain rfl : tu = tv := by simpa using hsv
                exact le_of_lt (lt_of_lt_of_le htpt hle)
              · exact hb v hv tv hsv
            · intro j hj hji tv hsv
              rcases j with _ | j'
              · have hsv' : sphereT ray u = some tv := hsv
                rw [hu] at hsv'
                obtain rfl : tu = tv := by simpa using hsv'
                exact lt_of_lt_of_le htpt hle
              · exact hstrict j' (Nat.lt_of_succ_lt_succ hj) (Nat.lt_of_succ_lt_succ hji) tv hsv

end TraceLoopLemmas

/-- C1: for every scene and every ray (with the `Unit`-typed direction
invariant `|d|^2 ≠ 0`), `trace_ray` considers exactly the spheres whose
discriminant and near root are non-negative, returns the hit with the strictly
smallest candidate `t` (earlier sphere wins exact ties, since replacement needs
a strictly smaller distance), and returns `none` when no sphere qualifies. -/
theorem trace_ray_selects_closest (scene : Scene) (ray : Ray)
    (hd : ray.direction.normSq ≠ 0) : traceRaySpec ray scene := by
  refine ⟨?_, ?_, ?_⟩
  · rw [trace_ray, Option.map_eq_none', traceLoop_none]
    simp
  · intro s t
    constructor
    · intro h
      rw [sphereT] at h
      by_cases h1 : sphereDisc ray s < 0
      · rw [if_pos h1] at h
        exact absurd h (by simp)
      rw [if_neg h1] at h
      by_cases h2 : nearRoot ray s < 0
      · rw [if_pos h2] at h
        exact absurd h (by simp)
      rw [if_neg h2] at h
      obtain rfl : nearRoot ray s = t := by simpa using h
      exact ⟨not_lt.mp h1, not_lt.mp h2, rfl⟩
    · rintro ⟨h1, h2, rfl⟩
      rw [sphereT, if_neg (not_lt.mpr h1), if_neg (not_lt.mpr h2)]
  · intro hp h
    rw [trace_ray, Option.map_eq_some'] at h
    obtain ⟨⟨s, t⟩, hloop, rfl⟩ := h
    rcases traceLoop_sel ray scene.spheres none s t hloop with ⟨hacc, _⟩ |
      ⟨i, hi, hget, hsph, _, hb, hstrict⟩
    · exact absurd hacc (by simp)
    · exact ⟨i, hi, hget, hsph, hb, hstrict⟩

/-- Witness for C1 at a concrete one-sphere scene and concrete unit ray. -/
theorem trace_ray_selects_closest_witness :
    (Vec3.normSq ⟨0, 0, 1⟩ ≠ 0) ∧
      traceRaySpec ⟨⟨0, 0, -3⟩, ⟨0, 0, 1⟩⟩ ⟨[⟨⟨0, 0, 0⟩, 1, 0⟩], [defaultMaterial]⟩ :=
  ⟨by norm_num [Vec3.normSq],
    trace_ray_selects_closest _ _ (by norm_num [Vec3.normSq])⟩

/-- C9 (code bug): on a zero-length direction the per-sphere discriminant
evaluates to `0`, which passes the `discriminant < 0` skip, and the near root
is `(-0 - sqrt 0) / 0` — `NaN` in `f32`, `0` in this real-valued model — which
also fails the `distance < 0.0` skip (`NaN < 0.0` is false in `f32`, `0 < 0`
is false here), so `trace_ray` returns a degenerate hit instead of the `None`
the specification requires for zero-length directions. -/
theorem trace_ray_zero_direction_hits :
    trace_ray ⟨⟨0, 0, -2⟩, ⟨0, 0, 0⟩⟩ ⟨[⟨⟨0, 0, 0⟩, 1, 0⟩], [defaultMaterial]⟩ =
      some ⟨0, ⟨0, 0, -2⟩, ⟨0, 0, 1⟩, ⟨⟨0, 0, 0⟩, 1, 0⟩⟩ := by
  have hdisc : sphereDisc ⟨⟨0, 0, -2⟩, ⟨0, 0, 0⟩⟩ ⟨⟨0, 0, 0⟩, 1, 0⟩ = 0 := by
    norm_num [sphereDisc, Vec3.dot, Vec3.normSq]
  have hroot : nearRoot ⟨⟨0, 0, -2⟩, ⟨0, 0, 0⟩⟩ ⟨⟨0, 0, 0⟩, 1, 0⟩ = 0 := by
    rw [nearRoot, hdisc, Real.sqrt_zero]
    norm_num [Vec3.dot, Vec3.normSq]
  have hT : sphereT ⟨⟨0, 0, -2⟩, ⟨0, 0, 0⟩⟩ ⟨⟨0, 0, 0⟩, 1, 0⟩ = some 0 := by
    rw [sphereT, hdisc, hroot]
    norm_num
  rw [trace_ray]
  have hloop : traceLoop ⟨⟨0, 0, -2⟩, ⟨0, 0, 0⟩⟩ [⟨⟨0, 0, 0⟩, 1, 0⟩] none =
      some (⟨⟨0, 0, 0⟩, 1, 0⟩, 0) := by
    rw [traceLoop_cons, traceLoop_nil, traceStep_some_of_none hT]
  rw [hloop, Option.map_some']
  refine congrArg some ?_
  ext <;> norm_num [closest_hit, renormalizeFast, Vec3.divs, Vec3.normSq]

/-- C10: a ray whose origin lies strictly inside a sphere never yields a hit on
that sphere: with `a > 0` and `c < 0` the discriminant exceeds `b^2`, so the
near root is negative and the sphere is skipped. -/
theorem trace_ray_never_hits_containing_sphere (scene : Scene) (ray : Ray)
    (hd : ray.direction.normSq ≠ 0) (hp : HitPayload)
    (h : trace_ray ray scene = some hp) :
    ¬ ((ray.origin - hp.sphere.position).normSq < hp.sphere.radius ^ 2) := by
  intro hin
  rw [trace_ray, Option.map_eq_some'] at h
  obtain ⟨⟨s, t⟩, hloop, rfl⟩ := h
  rcases traceLoop_sel ray scene.spheres none s t hloop with ⟨hacc, _⟩ |
    ⟨_, _, _, hsph, _, _, _⟩
  · exact absurd hacc (by simp)
  · rw [sphereT] at hsph
    by_cases h1 : sphereDisc ray s < 0
    · rw [if_pos h1] at hsph
      exact absurd hsph (by simp)
    rw [if_neg h1] at hsph
    by_cases h2 : nearRoot ray s < 0
    · rw [if_pos h2] at hsph
      exact absurd hsph (by simp)
    rw [if_neg h2] at hsph
    · have ha : 0 < ray.direction.normSq :=
        lt_of_le_of_ne (Vec3.normSq_nonneg _) (Ne.symm hd)
      have hc : (ray.origin - s.position).normSq - s.radius ^ 2 < 0 := by
        have : (ray.origin - s.position).normSq < s.radius ^ 2 := hin
        linarith
      have hdiscgt : (2 * ((ray.origin - s.position).dot ray.direction)) ^ 2 <
          sphereDisc ray s := by
        rw [sphereDisc]
        nlinarith [mul_pos ha (neg_pos.mpr hc)]
      have habs : |2 * ((ray.origin - s.position).dot ray.direction)| <
          Real.sqrt (sphereDisc ray s) := by
        rw [← Real.sqrt_sq_eq_abs]
        exact Real.sqrt_lt_sqrt (sq_nonneg _) hdiscgt
      have hnegle : -(2 * ((ray.origin - s.position).dot ray.direction)) ≤
          |2 * ((ray.origin - s.position).dot ray.direction)| := by
        rw [← abs_neg]
        exact le_abs_self _
      have hnum : -(2 * ((ray.origin - s.position).dot ray.direction)) -
          Real.sqrt (sphereDisc ray s) < 0 := by linarith
      have hneg : nearRoot ray s < 0 := by
        rw [nearRoot]
        exact div_neg_of_neg_of_pos hnum (by linarith)
      exact h2 hneg

/-- Witness for C10: a ray starting outside a sphere of radius 3 hits it, and
the hit sphere indeed does not strictly contain the ray origin. -/
theorem trace_ray_never_hits_containing_sphere_witness :
    (Vec3.normSq ⟨0, 0, 1⟩ ≠ 0) ∧
      ¬ ((Vec3.mk 0 0 (-5) -
          (HitPayload.mk 2 ⟨0, 0, -3⟩ ⟨0, 0, -1⟩ ⟨⟨0, 0, 0⟩, 3, 0⟩).sphere.position).normSq <
        (HitPayload.mk 2 ⟨0, 0, -3⟩ ⟨0, 0, -1⟩ ⟨⟨0, 0, 0⟩, 3, 0⟩).sphere.radius ^ 2) := by
  have hsqrt : Real.sqrt 36 = 6 := by
    rw [show (36 : ℝ) = 6 ^ 2 by norm_num, Real.sqrt_sq]
    norm_num
  have hdisc : sphereDisc ⟨⟨0, 0, -5⟩, ⟨0, 0, 1⟩⟩ ⟨⟨0, 0, 0⟩, 3, 0⟩ = 36 := by
    norm_num [sphereDisc, Vec3.dot, Vec3.normSq]
  have hroot : nearRoot ⟨⟨0, 0, -5⟩, ⟨0, 0, 1⟩⟩ ⟨⟨0, 0, 0⟩, 3, 0⟩ = 2 := by
    rw [nearRoot, hdisc, hsqrt]
    norm_num [Vec3.dot, Vec3.normSq]
  have hT : sphereT ⟨⟨0, 0, -5⟩, ⟨0, 0, 1⟩⟩ ⟨⟨0, 0, 0⟩, 3, 0⟩ = some 2 := by
    rw [sphereT, hdisc, hroot]
    norm_num
  have htr : trace_ray ⟨⟨0, 0, -5⟩, ⟨0, 0, 1⟩⟩ ⟨[⟨⟨0, 0, 0⟩, 3, 0⟩], [defaultMaterial]⟩ =
      some ⟨2, ⟨0, 0, -3⟩, ⟨0, 0, -1⟩, ⟨⟨0, 0, 0⟩, 3, 0⟩⟩ := by
    rw [trace_ray]
    have hloop : traceLoop ⟨⟨0, 0, -5⟩, ⟨0, 0, 1⟩⟩ [⟨⟨0, 0, 0⟩, 3, 0⟩] none =
        some (⟨⟨0, 0, 0⟩, 3, 0⟩, 2) := by
      rw [traceLoop_cons, traceLoop_nil, traceStep_some_of_none hT]
    rw [hloop, Option.map_some']
    refine congrArg some ?_
    ext <;> norm_num [closest_hit, renormalizeFast, Vec3.divs, Vec3.normSq]
  exact ⟨by norm_num [Vec3.normSq],
    trace_ray_never_hits_containing_sphere _ _ (by norm_num [Vec3.normSq]) _ htr⟩

/-- The canonical front-hit check from the spec: ray from `(0,0,-2)` toward
`(0,0,1)` against a sphere of radius `0.5` at the origin hits at distance
`1.5`, position `(0,0,-0.5)`, normal `(0,0,-1)`. -/
theorem trace_ray_canonical :
    trace_ray ⟨⟨0, 0, -2⟩, ⟨0, 0, 1⟩⟩ ⟨[⟨⟨0, 0, 0⟩, 0.5, 0⟩], [defaultMaterial]⟩ =
      some ⟨1.5, ⟨0, 0, -0.5⟩, ⟨0, 0, -1⟩, ⟨⟨0, 0, 0⟩, 0.5, 0⟩⟩ := by
  have hdisc : sphereDisc ⟨⟨0, 0, -2⟩, ⟨0, 0, 1⟩⟩ ⟨⟨0, 0, 0⟩, 0.5, 0⟩ = 1 := by
    norm_num [sphereDisc, Vec3.dot, Vec3.normSq]
  have hroot : nearRoot ⟨⟨0, 0, -2⟩, ⟨0, 0, 1⟩⟩ ⟨⟨0, 0, 0⟩, 0.5, 0⟩ = 1.5 := by
    rw [nearRoot, hdisc, Real.sqrt_one]
    norm_num [Vec3.dot, Vec3.normSq]
  have hT : sphereT ⟨⟨0, 0, -2⟩, ⟨0, 0, 1⟩⟩ ⟨⟨0, 0, 0⟩, 0.5, 0⟩ = some 1.5 := by
    rw [sphereT, hdisc, hroot]
    norm_num
  rw [trace_ray]
  have hloop : traceLoop ⟨⟨0, 0, -2⟩, ⟨0, 0, 1⟩⟩ [⟨⟨0, 0, 0⟩, 0.5, 0⟩] none =
      some (⟨⟨0, 0, 0⟩, 0.5, 0⟩, 1.5) := by
    rw [traceLoop, traceLoop, traceStep, hT]
  rw [hloop, Option.map_some']
  refine congrArg some ?_
  ext <;> norm_num [closest_hit, renormalizeFast, Vec3.divs, Vec3.normSq]

/-- C4: in the bounce-direction update of `per_pixel`, a material roughness of
exactly `0` yields the exact mirror reflection `d' = d - 2 (d·n) n` about the
(unit) hit normal `n`, and the random perturbation vector has no effect on the
result. -/
theorem roughness_zero_mirror (n d rand rand' : Vec3) (hn : n.normSq = 1) :
    nextRayDirection n d 0 rand = d - (2 * (d.dot n)) • n ∧
      nextRayDirection n d 0 rand = nextRayDirection n d 0 rand' := by
  have hz : ∀ r : Vec3, n + (0 : ℝ) • r = n := by
    intro r; ext <;> simp
  constructor
  · simp only [nextRayDirection, hz, Vec3.normalize_of_normSq_one n hn]
    rw [Vec3.dot_comm n d]
  · simp only [nextRayDirection, hz]

/-- Witness for C4 at concrete normal, direction, and two different random
vectors. -/
theorem roughness_zero_mirror_witness :
    nextRayDirection ⟨0, 0, 1⟩ ⟨1, 2, 3⟩ 0 ⟨5, 6, 7⟩ =
        Vec3.mk 1 2 3 - (2 * (Vec3.dot ⟨1, 2, 3⟩ ⟨0, 0, 1⟩)) • Vec3.mk 0 0 1 ∧
      nextRayDirection ⟨0, 0, 1⟩ ⟨1, 2, 3⟩ 0 ⟨5, 6, 7⟩ =
        nextRayDirection ⟨0, 0, 1⟩ ⟨1, 2, 3⟩ 0 ⟨9, 9, 9⟩ :=
  roughness_zero_mirror _ _ _ _ (by norm_num [Vec3.normSq])

/-- C3: whenever a traced ray misses every sphere, `per_pixel` adds the fixed
sky color `(0.6, 0.7, 0.9)` scaled by the current attenuation multiplier and
terminates the bounce loop; in particular a first-trace miss returns exactly
the sky color with alpha `1`. -/
theorem per_pixel_sky_on_miss (scene : Scene) (rands : ℕ → Vec3) :
    (∀ (width : ℕ) (cam : Camera) (x y : ℕ),
      trace_ray ⟨cam.position, cam.rays.getD (y * width + x) ⟨0, 0, 0⟩⟩ scene = none →
      per_pixel width scene cam rands x y = ⟨0.6, 0.7, 0.9, 1⟩) ∧
    (∀ (fuel k : ℕ) (ray : Ray) (color : Vec3) (mult : ℝ),
      trace_ray ray scene = none →
      bounce_loop scene rands (fuel + 1) k ray color mult = color + mult • skyColor) := by
  have hloop : ∀ (fuel k : ℕ) (ray : Ray) (color : Vec3) (mult : ℝ),
      trace_ray ray scene = none →
      bounce_loop scene rands (fuel + 1) k ray color mult = color + mult • skyColor := by
    intro fuel k ray color mult h
    simp only [bounce_loop, h]
  refine ⟨?_, hloop⟩
  intro width cam x y h
  rw [per_pixel]
  rw [show (2 : ℕ) = 1 + 1 from rfl,
    hloop 1 0 ⟨cam.position, cam.rays.getD (y * width + x) ⟨0, 0, 0⟩⟩ ⟨0, 0, 0⟩ 1 h]
  ext <;> norm_num [skyColor]

/-- Witness for C3: an empty scene misses, and `per_pixel` returns the sky
color with alpha `1`. -/
theorem per_pixel_sky_on_miss_witness :
    trace_ray ⟨⟨0, 0, -1⟩, ⟨0, 0, 0⟩⟩ ⟨[], []⟩ = none ∧
      per_pixel 1 ⟨[], []⟩
        ⟨⟨1, 1, 1, 1, 1, 0⟩, 45, 0.1, 100, ⟨0, 0, -1⟩, ⟨0, 0, 1⟩, [], ⟨1, 1⟩⟩
        (fun _ => ⟨0, 0, 0⟩) 0 0 = ⟨0.6, 0.7, 0.9, 1⟩ :=
  ⟨rfl,
    (per_pixel_sky_on_miss ⟨[], []⟩ (fun _ => ⟨0, 0, 0⟩)).1 1
      ⟨⟨1, 1, 1, 1, 1, 0⟩, 45, 0.1, 100, ⟨0, 0, -1⟩, ⟨0, 0, 1⟩, [], ⟨1, 1⟩⟩ 0 0 rfl⟩

/-- C2: `reset_counter` sets the sample counter to `1`; when the counter is
`1` at the start of an update pass every slot of the running-sum buffer is
zeroed before the pass's per-pixel color is added (so the slot ends as
`0 + color`); and after the pass the counter is incremented when
`should_accumulate` holds and reset to `1` otherwise. -/
theorem accumulator_counter_spec (l : Lantern) (colors : ℕ → Vec4) :
    (l.reset_counter).acc_counter = 1 ∧
    (l.acc_counter = 1 → ∀ i, i < l.path_acc.length →
      (l.update colors).path_acc.getD i ⟨0, 0, 0, 0⟩ = (⟨0, 0, 0, 0⟩ : Vec4) + colors i) ∧
    (l.update colors).acc_counter = (if l.should_accumulate then l.acc_counter + 1 else 1) := by
  refine ⟨rfl, ?_, rfl⟩
  intro h1 i hi
  simp only [Lantern.update, h1, if_pos]
  rw [List.getD_eq_getElem?_getD, List.getElem?_map, List.getElem?_range hi]
  simp only [Option.map_some', Option.getD_some]
  rw [List.getD_eq_getElem?_getD, List.getElem?_replicate, if_pos hi]
  rfl

/-- Witness for C2 on a one-pixel accumulator with counter `1`. -/
theorem accumulator_counter_spec_witness :
    ((⟨[⟨5, 6, 7, 8⟩], 1, true⟩ : Lantern).acc_counter = 1) ∧
      (Lantern.update ⟨[⟨5, 6, 7, 8⟩], 1, true⟩ (fun _ => ⟨1, 2, 3, 4⟩)).path_acc.getD 0
          ⟨0, 0, 0, 0⟩ =
        (⟨0, 0, 0, 0⟩ : Vec4) + (fun _ => (⟨1, 2, 3, 4⟩ : Vec4)) 0 :=
  ⟨rfl,
    (accumulator_counter_spec ⟨[⟨5, 6, 7, 8⟩], 1, true⟩ (fun _ => ⟨1, 2, 3, 4⟩)).2.1 rfl 0
      (by norm_num)⟩

theorem unproj_normSq_ne (a fovy n f cx cy : ℝ) :
    (Vec3.mk ((Proj.inverse (perspectiveZFlip a fovy n f)).mulVec4 ⟨cx, cy, 1, 1⟩).x
      ((Proj.inverse (perspectiveZFlip a fovy n f)).mulVec4 ⟨cx, cy, 1, 1⟩).y
      ((Proj.inverse (perspectiveZFlip a fovy n f)).mulVec4 ⟨cx, cy, 1, 1⟩).z).normSq ≠ 0 := by
  have hz : ((Proj.inverse (perspectiveZFlip a fovy n f)).mulVec4 ⟨cx, cy, 1, 1⟩).z = 1 := by
    simp [perspectiveZFlip, Proj.inverse, Proj.mulVec4]
  simp only [Vec3.normSq]
  rw [hz]
  positivity

theorem rayDirAt_normSq (a fovy n f : ℝ) (forward : Vec3) (size : PhysicalSize)
    (hR : ∀ v, (lookAtInvRot forward v).normSq = v.normSq) (i : ℕ) :
    (rayDirAt (perspectiveZFlip a fovy n f) forward size i).normSq = 1 := by
  simp only [rayDirAt]
  rw [hR]
  split_ifs with hw
  · rw [Vec3.normSq_neg]
    exact Vec3.normSq_normalize _ (unproj_normSq_ne a fovy n f _ _)
  · exact Vec3.normSq_normalize _ (unproj_normSq_ne a fovy n f _ _)

/-- C6: for every non-degenerate viewport and every camera state whose view
rotation preserves squared norms (the rotation part of an `Isometry3`), every
ray direction stored by `reevaluate_rays` has squared magnitude within
`[0.9, 1.1]` (in the real-valued model it is exactly `1`), so the sanity
assertion in the ray-generation loop never fires. -/
theorem camera_rays_unit_band (a fovy n f : ℝ) (forward : Vec3) (size : PhysicalSize)
    (hR : ∀ v, (lookAtInvRot forward v).normSq = v.normSq)
    (hw : size.width ≠ 0) (hh : size.height ≠ 0) :
    ∀ d ∈ reevaluate_rays (perspectiveZFlip a fovy n f) forward size,
      0.9 ≤ d.normSq ∧ d.normSq ≤ 1.1 := by
  intro d hd
  rw [reevaluate_rays] at hd
  obtain ⟨i, -, rfl⟩ := List.mem_map.mp hd
  rw [rayDirAt_normSq a fovy n f forward size hR i]
  norm_num

theorem lookAtInvRot_z (v : Vec3) : lookAtInvRot ⟨0, 0, 1⟩ v = v := by
  have h1 : Vec3.normalize ⟨0, 0, 1⟩ = ⟨0, 0, 1⟩ :=
    Vec3.normalize_of_normSq_one _ (by norm_num [Vec3.normSq])
  have h2 : Vec3.cross yAxis ⟨0, 0, 1⟩ = ⟨1, 0, 0⟩ := by
    ext <;> norm_num [yAxis, Vec3.cross]
  have h3 : Vec3.normalize ⟨1, 0, 0⟩ = ⟨1, 0, 0⟩ :=
    Vec3.normalize_of_normSq_one _ (by norm_num [Vec3.normSq])
  have h4 : Vec3.cross ⟨0, 0, 1⟩ ⟨1, 0, 0⟩ = ⟨0, 1, 0⟩ := by
    ext <;> norm_num [Vec3.cross]
  have h5 : Vec3.normalize ⟨0, 1, 0⟩ = ⟨0, 1, 0⟩ :=
    Vec3.normalize_of_normSq_one _ (by norm_num [Vec3.normSq])
  rw [lookAtInvRot, h1, h2, h3, h4, h5]
  ext <;> simp

/-- Witness for C6 on a concrete projection, forward `+Z`, and a 1x1 viewport. -/
theorem camera_rays_unit_band_witness :
    0.9 ≤ (rayDirAt (perspectiveZFlip 1 1 0.1 100) ⟨0, 0, 1⟩ ⟨1, 1⟩ 0).normSq ∧
      (rayDirAt (perspectiveZFlip 1 1 0.1 100) ⟨0, 0, 1⟩ ⟨1, 1⟩ 0).normSq ≤ 1.1 :=
  camera_rays_unit_band 1 1 0.1 100 ⟨0, 0, 1⟩ ⟨1, 1⟩
    (fun v => by rw [lookAtInvRot_z]) (by norm_num) (by norm_num)
    (rayDirAt (perspectiveZFlip 1 1 0.1 100) ⟨0, 0, 1⟩ ⟨1, 1⟩ 0)
    (by rw [reevaluate_rays]
        exact List.mem_map.mpr ⟨0, List.mem_range.mpr (by norm_num), rfl⟩)

/-- C7 (amended): `Camera::new` places the camera at `(0, 0, -1)` — one unit
behind the origin on the `-Z` axis, not at the origin — looking down `+Z`, and
computes the initial per-pixel ray array of length `width * height`. -/
theorem camera_new_spec (vertical_fov near far : ℝ) (size : PhysicalSize)
    (hw : 0 < size.width) (hh : 0 < size.height) :
    (Camera.new vertical_fov near far size).position = ⟨0, 0, -1⟩ ∧
      (Camera.new vertical_fov near far size).forward = ⟨0, 0, 1⟩ ∧
      (Camera.new vertical_fov near far size).rays.length = size.width * size.height := by
  refine ⟨rfl, rfl, ?_⟩
  simp [Camera.new, reevaluate_rays]

/-- Counterexample to C7 as stated: the camera constructed by `Camera::new` is
not positioned at the origin (src/camera.rs line 42 sets `(0, 0, -1)`). -/
theorem camera_new_position_not_origin :
    (Camera.new 45 0.1 100 ⟨2, 2⟩).position ≠ ⟨0, 0, 0⟩ := by
  intro h
  have h3 : (-1 : ℝ) = 0 := congrArg Vec3.z h
  norm_num at h3

/-- Witness for C7 at a concrete viewport. -/
theorem camera_new_spec_witness :
    (0 < (PhysicalSize.mk 2 3).width) ∧
      ((Camera.new 45 0.1 100 ⟨2, 3⟩).position = ⟨0, 0, -1⟩ ∧
        (Camera.new 45 0.1 100 ⟨2, 3⟩).forward = ⟨0, 0, 1⟩ ∧
        (Camera.new 45 0.1 100 ⟨2, 3⟩).rays.length =
          (PhysicalSize.mk 2 3).width * (PhysicalSize.mk 2 3).height) :=
  ⟨by norm_num, camera_new_spec 45 0.1 100 ⟨2, 3⟩ (by norm_num) (by norm_num)⟩

/-- C8 (amended): `Camera::resize` itself is not guarded — it always stores
the new viewport size and rebuilds the ray array (which is empty for a
zero-area viewport, so the per-ray loop body never runs) — while the zero-size
no-op guard lives in the caller `App::resize`, which leaves the camera
untouched when either dimension is zero. -/
theorem camera_resize_zero_dim (c : Camera) (s : PhysicalSize)
    (h : s.width = 0 ∨ s.height = 0) :
    appResizeCamera c s = c ∧ (c.resize s).viewport_size = s ∧ (c.resize s).rays = [] := by
  refine ⟨?_, rfl, ?_⟩
  · rw [appResizeCamera, if_pos h]
  · show reevaluate_rays
      (perspectiveZFlip ((s.width : ℝ) / (s.height : ℝ)) c.vertical_fov c.near c.far)
      c.forward s = []
    rw [reevaluate_rays]
    rcases h with h | h <;> simp [h]

/-- Counterexample to C8 as stated: calling `Camera::resize` with a
zero-width size is not a no-op — the stored viewport size changes. -/
theorem camera_resize_zero_not_noop :
    ((Camera.new 45 0.1 100 ⟨2, 2⟩).resize ⟨0, 2⟩).viewport_size ≠
      (Camera.new 45 0.1 100 ⟨2, 2⟩).viewport_size := by
  intro h
  have h2 : (0 : ℕ) = 2 := congrArg PhysicalSize.width h
  norm_num at h2

/-- Witness for C8 at a concrete camera and zero-width size. -/
theorem camera_resize_zero_dim_witness :
    appResizeCamera (Camera.new 45 0.1 100 ⟨2, 2⟩) ⟨0, 2⟩ = Camera.new 45 0.1 100 ⟨2, 2⟩ ∧
      ((Camera.new 45 0.1 100 ⟨2, 2⟩).resize ⟨0, 2⟩).viewport_size = ⟨0, 2⟩ ∧
      ((Camera.new 45 0.1 100 ⟨2, 2⟩).resize ⟨0, 2⟩).rays = [] :=
  camera_resize_zero_dim (Camera.new 45 0.1 100 ⟨2, 2⟩) ⟨0, 2⟩ (Or.inl rfl)
